import Mathlib

/-!
A verification development for `ubootwrite.py`, a serial-console upload tool
for the Cisco Meraki MR33 U-Boot bootloader.

Bytes are modelled as `Nat` (values 0..255 in practice), byte strings as
`List Nat`.  The serial transport is modelled as an oracle: a list of
responses, one per `read` call (each response is truncated to the requested
size), together with a log of all written byte strings and of all requested
read sizes.  File/stdin byte sources are plain `List Nat` consumed with
`take`/`drop`.  Loops of the Python source that may run forever are given a
fuel parameter (or return `none` for divergence), keeping every definition
executable.
-/

namespace Ubootwrite

/-- ASCII bytes of a string literal (the protocol is ASCII-only). -/
def strBytes (s : String) : List Nat := s.toList.map Char.toNat

/-- `LINE_FEED = "\n"` from the source, as a byte. -/
def LINE_FEED : Nat := 10

/-- `MAX_SIZE = 2 ** 30` from the source. -/
def MAX_SIZE : Nat := 2 ^ 30

/-- Boolean test that `pat` occurs at the start of `l`. -/
def leadsWith : List Nat → List Nat → Bool
  | [], _ => true
  | _ :: _, [] => false
  | a :: as, b :: bs => a == b && leadsWith as bs

/-- Boolean test that `pat` occurs contiguously inside `l` (Python `in` on bytes). -/
def containsSeq (pat : List Nat) : List Nat → Bool
  | [] => pat.isEmpty
  | b :: bs => leadsWith pat (b :: bs) || containsSeq pat bs

/-- Boolean test that `l` ends with `suffixPat` (Python `bytes.endswith`). -/
def endsWithSeq (suffixPat l : List Nat) : Bool :=
  leadsWith suffixPat.reverse l.reverse

/-- A single lowercase hex digit as an ASCII byte. -/
def hexDigitByte (d : Nat) : Nat := if d < 10 then 48 + d else 87 + d

/-- Little-endian hex digits of `n` (empty for 0); fuel-based for computability. -/
def hexRevDigits : Nat → Nat → List Nat
  | 0, _ => []
  | fuel + 1, n => if n = 0 then [] else n % 16 :: hexRevDigits fuel (n / 16)

/-- ASCII bytes of Python `f"{n:08x}"`: lowercase hex, zero-padded to width 8. -/
def hexBytes (n : Nat) : List Nat :=
  let ds := ((hexRevDigits n n).reverse).map hexDigitByte
  List.replicate (8 - ds.length) 48 ++ ds

/-- Big-endian value of a byte list (`struct.unpack(">L", ...)` on 4 bytes). -/
def beVal (l : List Nat) : Nat := l.foldl (fun a b => a * 256 + b) 0

/-- The 32-bit value `memwrite` encodes for one source chunk: reverse the
chunk, left-pad the reversed bytes with zeros to 4 bytes, read big-endian
(lines 157-171 of the source). -/
def wordVal (chunk : List Nat) : Nat :=
  beVal (List.replicate (4 - chunk.reverse.length) 0 ++ chunk.reverse)

/-- Bytes of the command `f"mw {addr:08x} {val:08x}"`. -/
def mwCmd (addr val : Nat) : List Nat :=
  strBytes "mw " ++ hexBytes addr ++ [32] ++ hexBytes val

/-- Bytes of the command `f"bootm {addr:08x}"`. -/
def bootmCmd (addr : Nat) : List Nat :=
  strBytes "bootm " ++ hexBytes addr

/-- The serial transport, modelled as an oracle.  `pending` holds the response
of each future `read` call (the environment's choice of what the device
delivers to that call); `writes` logs every written byte string in order;
`reqs` logs the size requested by each `read` call in order. -/
structure Serial where
  pending : List (List Nat)
  writes : List (List Nat)
  reqs : List Nat
deriving DecidableEq

/-- `ser.read(n)`: pop the next oracle response, truncated to `n` bytes
(a serial read returns at most the requested number of bytes); an exhausted
oracle yields empty reads, like a quiet line with a read timeout. -/
def Serial.read (s : Serial) (n : Nat) : List Nat × Serial :=
  ((s.pending.headD []).take n, ⟨s.pending.tail, s.writes, s.reqs ++ [n]⟩)

/-- `ser.write(b)`: log the written bytes. -/
def Serial.write (s : Serial) (b : List Nat) : Serial :=
  ⟨s.pending, s.writes ++ [b], s.reqs⟩

/-- `writecommand(ser, command, prompt, verbose)` (lines 104-126): write the
command plus a line feed, read back `len(command)` bytes and require the
echo, then read back `len(prompt)` bytes and require the prompt.
Diagnostic printing is omitted; it does not touch the transport. -/
def writecommand (s : Serial) (command prompt : List Nat) : Bool × Serial :=
  let s1 := s.write (command ++ [LINE_FEED])
  let r1 := s1.read command.length
  if r1.1 ≠ command then (false, r1.2)
  else
    let r2 := r1.2.read prompt.length
    if r2.1 = prompt then (true, r2.2) else (false, r2.2)

/-- `"machid: 8010001"`, the boot-stage marker `getprompt` waits for. -/
def marker : List Nat := strBytes "machid: 8010001"

/-- One of the two prompt suffixes `"> "` / `"# "` ends the chunk (line 87). -/
def promptSuffix (b : List Nat) : Bool :=
  endsWithSeq [62, 32] b || endsWithSeq [35, 32] b

/-- `while ser.read(256): pass` (lines 76-77): keep reading until a read
comes back empty; returns the oracle responses left after the drain. -/
def drainReads : List (List Nat) → List (List Nat)
  | [] => []
  | c :: rest => if (c.take 256).isEmpty then rest else drainReads rest

/-- The marker-wait phase of `getprompt` (lines 69-78): read 256-byte chunks,
keeping the previous chunk, until the marker appears in the concatenation of
two consecutive chunks; then send `"xyzzy"` and drain.  Returns the oracle
responses remaining afterwards, or `none` when the oracle is exhausted (the
Python loop then blocks forever on empty reads; an empty read can never
complete a marker match that its own chunk did not already complete). -/
def syncPhase : List (List Nat) → List Nat → Option (List (List Nat))
  | [], _ => none
  | c :: rest, oldbuf =>
    let buf := c.take 256
    if containsSeq marker (oldbuf ++ buf) then some (drainReads rest)
    else syncPhase rest buf

/-- The inner flush loop of `getprompt` (lines 94-100): it reads chunks and
tests them for a prompt suffix, but its body contains no `break` or `return`,
so it never leaves the loop no matter what is read; with the oracle exhausted
it keeps reading empty chunks forever.  It therefore never produces a value. -/
def promptDrainForever : List (List Nat) → Option (List Nat)
  | [] => none
  | _ :: rest => promptDrainForever rest

/-- The prompt phase of `getprompt` (lines 82-101): write one line feed, read
a chunk; if it ends with `"> "` or `"# "`, return the whole chunk; otherwise
enter the no-exit flush loop and never return. -/
def promptPhase : List (List Nat) → Option (List Nat)
  | [] => none
  | c :: rest =>
    let buf := c.take 256
    if promptSuffix buf then some buf else promptDrainForever rest

/-- `getprompt(ser, verbose)` (lines 63-101) over the read oracle: marker
phase, then prompt phase.  `some v` means the function returns `v`; `none`
means it blocks/loops forever.  Writes (the `"xyzzy"` token, the line feed)
do not influence the returned value and are not tracked here. -/
def getprompt (pending : List (List Nat)) : Option (List Nat) :=
  match syncPhase pending [] with
  | none => none
  | some rest => promptPhase rest

/-- Exit status of the `memwrite` transfer loop: `fail` carries `bytes_read`
at the moment a `writecommand` failed; `done` carries the final `bytes_read`
and the (possibly revised, for stdin) `size` when the loop ends normally. -/
inductive MWExit where
  | fail (bytesRead : Nat)
  | done (bytesRead size : Nat)
deriving DecidableEq

/-- Bytes requested from the source per iteration (lines 152-155):
`4` while more than 4 bytes remain, otherwise `size - bytes_read`. -/
def chunkSize (size bytesRead : Nat) : Nat :=
  if size - bytesRead > 4 then 4 else size - bytesRead

/-- The transfer loop of `memwrite` (lines 151-195): read a chunk, reverse
it, stop on an empty read (revising `size` for stdin), otherwise left-pad to
4 bytes, send `mw <addr> <val>` via `writecommand`, abort on failure, else
advance.  Each iteration consumes one unit of fuel; since every non-final
iteration strictly increases `bytes_read` while `bytes_read < size`, the
loop performs at most `size + 1` iterations.  Progress printing (lines
184-192) touches no transport or source state and is omitted. -/
def memwriteLoop : Nat → List Nat → Nat → Nat → Nat → Bool → List Nat → Serial →
    Option (MWExit × Serial)
  | 0, _, _, _, _, _, _, _ => none
  | fuel + 1, src, size, bytesRead, addr, isStdin, prompt, s =>
    if bytesRead < size then
      let chunk := (src.take (chunkSize size bytesRead)).reverse
      if chunk.length = 0 then
        some (MWExit.done bytesRead (if isStdin then bytesRead else size), s)
      else
        let r := writecommand s
          (mwCmd addr (beVal (List.replicate (4 - chunk.length) 0 ++ chunk))) prompt
        if r.1 then
          memwriteLoop fuel (src.drop (chunkSize size bytesRead)) size
            (bytesRead + chunk.length) (addr + 4) isStdin prompt r.2
        else some (MWExit.fail (bytesRead + chunk.length), r.2)
    else some (MWExit.done bytesRead size, s)

/-- Size resolution of `memwrite` (lines 135-145): a declared size of 0 means
unknown; stdin then uses the `MAX_SIZE` ceiling and a file uses its length. -/
def resolveSize (size0 : Nat) (isStdin : Bool) (srcLen : Nat) : Nat :=
  if size0 = 0 then (if isStdin then MAX_SIZE else srcLen) else size0

/-- The completion phase of `memwrite` (lines 199-205): on loop failure
return `False`; if `bytes_read` differs from the (possibly revised) size
report a read error and return `False`; otherwise issue `bootm <start>` —
ignoring its own success or failure — and return `True`.  The `none` branch
(fuel exhaustion of the loop) is unreachable for the fuel `memwrite` uses. -/
def memwriteFinish (startAddr : Nat) (prompt : List Nat) (s0 : Serial) :
    Option (MWExit × Serial) → Bool × Serial
  | none => (false, s0)
  | some (MWExit.fail _, s') => (false, s')
  | some (MWExit.done br sz, s') =>
    if br = sz then (true, (writecommand s' (bootmCmd startAddr) prompt).2)
    else (false, s')

/-- `memwrite(ser, path, size, start_addr, verbose, shell)` (lines 129-205),
for a console already at the prompt (the captured prompt is passed in;
with `shell` set the source never calls `getprompt` here). -/
def memwrite (src : List Nat) (size0 startAddr : Nat) (isStdin : Bool)
    (prompt : List Nat) (s : Serial) : Bool × Serial :=
  memwriteFinish startAddr prompt s
    (memwriteLoop (resolveSize size0 isStdin src.length + 1) src
      (resolveSize size0 isStdin src.length) 0 startAddr isStdin prompt s)

/-- `b"ERROR: can't get kernel image!"` scanned for by `upload` (line 223). -/
def errBanner : List Nat := strBytes "ERROR: can't get kernel image!"

/-- `b"Hello from MR33 U-BOOT"` scanned for by `upload` (line 227). -/
def okBanner : List Nat := strBytes "Hello from MR33 U-BOOT"

/-- The monitoring loop of `upload` after a successful `memwrite` (lines
215-229): read 256-byte chunks, keep the previous chunk, and scan each
two-chunk concatenation first for the kernel-image error (break: `some
false`) and then for the success banner (return: `some true`).  Empty reads
skip the scan.  `none` means the fuel ran out while still waiting. -/
def monitor : Nat → Serial → List Nat → Option Bool × Serial
  | 0, s, _ => (none, s)
  | fuel + 1, s, oldbuf =>
    let r := s.read 256
    if r.1.isEmpty then monitor fuel r.2 r.1
    else if containsSeq errBanner (oldbuf ++ r.1) then (some false, r.2)
    else if containsSeq okBanner (oldbuf ++ r.1) then (some true, r.2)
    else monitor fuel r.2 r.1

/-- `upload(ser, path, size, start_addr, verbose, shell)` (lines 208-229):
loop: run `memwrite`; on local failure just loop again; on local success
monitor the transport, returning on the success banner and looping again on
the error banner.  `attempts` is fuel for the unbounded outer loop and
`monFuel` fuel for each monitoring loop; `some ()` means the Python function
returns. -/
def upload : Nat → List Nat → Nat → Nat → Bool → List Nat → Nat → Serial →
    Option Unit × Serial
  | 0, _, _, _, _, _, _, s => (none, s)
  | attempts + 1, src, size0, addr, isStdin, prompt, monFuel, s =>
    let m := memwrite src size0 addr isStdin prompt s
    if m.1 then
      match monitor monFuel m.2 [] with
      | (some false, s'') => upload attempts src size0 addr isStdin prompt monFuel s''
      | (some true, s'') => (some (), s'')
      | (none, s'') => (none, s'')
    else upload attempts src size0 addr isStdin prompt monFuel m.2

/-! ## Helper lemmas about `writecommand` -/

/-- A `writecommand` against an oracle whose next two responses are the exact
echo and the exact prompt succeeds, consuming both responses. -/
theorem writecommand_ok (cmd prompt : List Nat) (rest : List (List Nat))
    (w : List (List Nat)) (q : List Nat) :
    writecommand ⟨cmd :: prompt :: rest, w, q⟩ cmd prompt
      = (true, ⟨rest, w ++ [cmd ++ [LINE_FEED]], q ++ [cmd.length, prompt.length]⟩) := by
  simp [writecommand, Serial.read, Serial.write, List.take_length]

/-- A `writecommand` whose echo read does not match fails at once, consuming
only the echo response. -/
theorem writecommand_bad_echo (cmd prompt e : List Nat) (rest : List (List Nat))
    (w : List (List Nat)) (q : List Nat) (he : e.take cmd.length ≠ cmd) :
    writecommand ⟨e :: rest, w, q⟩ cmd prompt
      = (false, ⟨rest, w ++ [cmd ++ [LINE_FEED]], q ++ [cmd.length]⟩) := by
  simp [writecommand, Serial.read, Serial.write, he]

/-- `writecommand` always appends exactly its command plus a line feed to the
write log, whatever its outcome. -/
theorem writecommand_writes (s : Serial) (cmd prompt : List Nat) :
    ((writecommand s cmd prompt).2).writes = s.writes ++ [cmd ++ [LINE_FEED]] := by
  simp only [writecommand, Serial.read, Serial.write]
  split
  · rfl
  · split <;> rfl

/-! ## Claim theorems: the Command Executor -/

/-- Claim C4: `writecommand` writes the command text followed by one line
feed, reads back exactly `len(command)` bytes and returns failure immediately
unless they are byte-identical to the command; otherwise it reads back
exactly `len(prompt)` bytes and returns success exactly when they equal the
expected prompt.  The resulting transport state is fully determined: one
write, and one or two reads, with no retries. -/
theorem writecommand_roundtrip (cmd prompt r1 r2 : List Nat)
    (rest : List (List Nat)) (w : List (List Nat)) (q : List Nat) :
    writecommand ⟨r1 :: r2 :: rest, w, q⟩ cmd prompt =
      if r1.take cmd.length ≠ cmd then
        (false, ⟨r2 :: rest, w ++ [cmd ++ [LINE_FEED]], q ++ [cmd.length]⟩)
      else if r2.take prompt.length = prompt then
        (true, ⟨rest, w ++ [cmd ++ [LINE_FEED]], q ++ [cmd.length, prompt.length]⟩)
      else
        (false, ⟨rest, w ++ [cmd ++ [LINE_FEED]], q ++ [cmd.length, prompt.length]⟩) := by
  simp only [writecommand, Serial.read, Serial.write, List.headD, List.tail_cons]
  split
  · simp_all
  · split <;> simp_all

/-- Claim C2: for a full 4-byte chunk `[a, b, c, d]` the value placed in the
`mw` command is the big-endian interpretation of the reversed chunk
`[d, c, b, a]`, that is `d·2²⁴ + c·2¹⁶ + b·2⁸ + a`. -/
theorem wordVal_big_endian_reversed (a b c d : Nat) :
    wordVal [a, b, c, d] = beVal [d, c, b, a] ∧
    beVal [d, c, b, a] = ((d * 256 + c) * 256 + b) * 256 + a := by
  constructor
  · simp [wordVal, beVal]
  · simp [beVal]

/-- Claim C1: uploading the 9-byte source `01 02 03 04 05 06 07 08 09` with
declared size 9 to start address `0x1000`, with every command succeeding,
issues exactly `mw 00001000 04030201`, `mw 00001004 08070605`,
`mw 00001008 00000009` in that order, then `bootm 00001000`, and returns
success. -/
theorem memwrite_nine_bytes_scenario :
    memwrite [1, 2, 3, 4, 5, 6, 7, 8, 9] 9 4096 false [62, 32]
      ⟨[strBytes "mw 00001000 04030201", [62, 32],
        strBytes "mw 00001004 08070605", [62, 32],
        strBytes "mw 00001008 00000009", [62, 32],
        strBytes "bootm 00001000", [62, 32]], [], []⟩
    = (true,
       ⟨[],
        [strBytes "mw 00001000 04030201" ++ [LINE_FEED],
         strBytes "mw 00001004 08070605" ++ [LINE_FEED],
         strBytes "mw 00001008 00000009" ++ [LINE_FEED],
         strBytes "bootm 00001000" ++ [LINE_FEED]],
        [20, 2, 20, 2, 20, 2, 14, 2]⟩) := by
  decide

/-! ## Helper lemmas about `getprompt` -/

/-- The exit-less flush loop of `getprompt` produces no value on any oracle. -/
theorem promptDrainForever_none (reads : List (List Nat)) :
    promptDrainForever reads = none := by
  induction reads with
  | nil => rfl
  | cons c rest ih => exact ih

/-- `leadsWith` decides "is an initial segment of". -/
theorem leadsWith_iff (a b : List Nat) : leadsWith a b = true ↔ ∃ t, b = a ++ t := by
  induction a generalizing b with
  | nil => simp [leadsWith]
  | cons x xs ih =>
    cases b with
    | nil => simp [leadsWith]
    | cons y ys =>
      simp only [leadsWith, Bool.and_eq_true, beq_iff_eq, ih, List.cons_append,
        List.cons.injEq]
      constructor
      · rintro ⟨hxy, t, ht⟩
        exact ⟨t, hxy.symm, ht⟩
      · rintro ⟨t, hxy, ht⟩
        exact ⟨hxy.symm, t, ht⟩

/-- `endsWithSeq` decides "ends with". -/
theorem endsWithSeq_iff (suf l : List Nat) :
    endsWithSeq suf l = true ↔ ∃ t, l = t ++ suf := by
  simp only [endsWithSeq, leadsWith_iff]
  constructor
  · rintro ⟨t, ht⟩
    refine ⟨t.reverse, ?_⟩
    have h2 := congrArg List.reverse ht
    simpa using h2
  · rintro ⟨t, rfl⟩
    exact ⟨t.reverse, by simp⟩

/-- Inversion for a returning `getprompt`: the marker phase completed and the
value is the whole first chunk read in the prompt phase, which carries a
prompt suffix. -/
theorem getprompt_some_inv (pending : List (List Nat)) (v : List Nat)
    (h : getprompt pending = some v) :
    ∃ rest, syncPhase pending [] = some rest ∧
      v = (rest.headD []).take 256 ∧ promptSuffix v = true := by
  unfold getprompt at h
  cases hs : syncPhase pending [] with
  | none => rw [hs] at h; exact absurd h (by simp)
  | some rest =>
    rw [hs] at h
    refine ⟨rest, rfl, ?_⟩
    cases rest with
    | nil => simp [promptPhase] at h
    | cons c rest' =>
      simp only [promptPhase] at h
      by_cases hp : promptSuffix (c.take 256)
      · simp only [hp, if_true] at h
        obtain rfl := Option.some.inj h
        exact ⟨rfl, hp⟩
      · rw [if_neg hp, promptDrainForever_none] at h
        exact absurd h (by simp)

/-! ## Claim theorems: the Console Synchronizer -/

/-- Claim C7 (refuted by the code): the flush loop of `getprompt` entered
when the first read after the line feed lacks a prompt suffix contains no
exit, so even when a later drained read ends with `"> "` the routine never
stops draining and never returns — against the spec's and the function's own
stated intent of capturing and returning the prompt. -/
theorem getprompt_drain_never_returns :
    getprompt [strBytes "machid: 8010001", [], [97], [62, 32]] = none ∧
    ∀ reads : List (List Nat), promptDrainForever reads = none :=
  ⟨by decide, promptDrainForever_none⟩

/-- Claim C6 as stated is false at this input: after the synchronization
marker, the first prompt-phase chunk `0d 0a 23 20` ends with the recognized
suffix `"# "`, and `getprompt` returns the whole 4-byte chunk, not a 2-byte
value. -/
theorem getprompt_two_bytes_counterexample :
    getprompt [strBytes "machid: 8010001", [], [13, 10, 35, 32]]
      = some [13, 10, 35, 32] ∧
    ([13, 10, 35, 32] : List Nat).length ≠ 2 := by
  decide

/-- Claim C6 (amended): whenever `getprompt` returns after a read chunk that
ends with one of the two recognized 2-byte prompt suffixes, the value it
returns is the entire matching chunk — still carrying the suffix at its end,
but of whatever length the chunk had (up to the 256 bytes requested), not
just the last two bytes. -/
theorem getprompt_whole_chunk (pending : List (List Nat)) (v : List Nat)
    (h : getprompt pending = some v) :
    ∃ rest, syncPhase pending [] = some rest ∧
      v = (rest.headD []).take 256 ∧ promptSuffix v = true :=
  getprompt_some_inv pending v h

/-- Witness for the amended claim C6, at a 3-byte prompt chunk `20 23 20`. -/
theorem getprompt_whole_chunk_witness :
    ∃ rest, syncPhase [strBytes "machid: 8010001", [], [32, 35, 32]] [] = some rest ∧
      ([32, 35, 32] : List Nat) = (rest.headD []).take 256 ∧
      promptSuffix [32, 35, 32] = true :=
  getprompt_whole_chunk [strBytes "machid: 8010001", [], [32, 35, 32]] [32, 35, 32]
    (by decide)

/-- Claim C10: every value `getprompt` actually returns ends with one of the
two 2-byte suffixes `"> "` or `"# "`, and — being the entire matching read
chunk — its length lies anywhere between 2 and 256 bytes. -/
theorem getprompt_return_invariant (pending : List (List Nat)) (v : List Nat)
    (h : getprompt pending = some v) :
    (∃ t, v = t ++ [62, 32] ∨ v = t ++ [35, 32]) ∧
    2 ≤ v.length ∧ v.length ≤ 256 := by
  obtain ⟨rest, hs, hv, hsuf⟩ := getprompt_some_inv pending v h
  have hshape : ∃ t, v = t ++ [62, 32] ∨ v = t ++ [35, 32] := by
    simp only [promptSuffix, Bool.or_eq_true] at hsuf
    cases hsuf with
    | inl h1 =>
      obtain ⟨t, ht⟩ := (endsWithSeq_iff _ _).1 h1
      exact ⟨t, Or.inl ht⟩
    | inr h1 =>
      obtain ⟨t, ht⟩ := (endsWithSeq_iff _ _).1 h1
      exact ⟨t, Or.inr ht⟩
  refine ⟨hshape, ?_, ?_⟩
  · obtain ⟨t, ht⟩ := hshape
    cases ht with
    | inl h1 => rw [h1]; simp
    | inr h1 => rw [h1]; simp
  · rw [hv]
    simp [List.length_take]

/-- Witness for claim C10, at the returned chunk `0a 3e 20`. -/
theorem getprompt_return_invariant_witness :
    (∃ t, ([10, 62, 32] : List Nat) = t ++ [62, 32] ∨
      ([10, 62, 32] : List Nat) = t ++ [35, 32]) ∧
    2 ≤ ([10, 62, 32] : List Nat).length ∧ ([10, 62, 32] : List Nat).length ≤ 256 :=
  getprompt_return_invariant [strBytes "machid: 8010001", [], [10, 62, 32]]
    [10, 62, 32] (by decide)

/-! ## Claim theorems: completion phase and the Upload Supervisor -/

/-- Claim C8: when the transfer loop ends normally, `memwrite` compares the
bytes consumed with the (possibly revised) size: on equality it issues the
final `bootm <start address>` command and returns success regardless of that
command's own outcome (the result of the bootm `writecommand` is discarded);
on inequality it reports the read error and returns failure with the
transport untouched, so no `bootm` is issued. -/
theorem memwrite_completion_gate (src : List Nat) (size0 addr : Nat)
    (isStdin : Bool) (prompt : List Nat) (s s' : Serial) (br sz : Nat)
    (h : memwriteLoop (resolveSize size0 isStdin src.length + 1) src
      (resolveSize size0 isStdin src.length) 0 addr isStdin prompt s
      = some (MWExit.done br sz, s')) :
    (br = sz →
      memwrite src size0 addr isStdin prompt s
        = (true, (writecommand s' (bootmCmd addr) prompt).2) ∧
      ((writecommand s' (bootmCmd addr) prompt).2).writes
        = s'.writes ++ [bootmCmd addr ++ [LINE_FEED]]) ∧
    (br ≠ sz → memwrite src size0 addr isStdin prompt s = (false, s')) := by
  constructor
  · intro hbs
    refine ⟨?_, writecommand_writes s' (bootmCmd addr) prompt⟩
    unfold memwrite
    rw [h]
    simp [memwriteFinish, hbs]
  · intro hbs
    unfold memwrite
    rw [h]
    simp [memwriteFinish, hbs]

/-- Witness for claim C8: an empty source with unknown size boots (and the
`bootm` line is logged) even though its `writecommand` fails on the silent
oracle, while a declared size of 5 against an empty source fails with no
`bootm` issued. -/
theorem memwrite_completion_gate_witness :
    (memwrite [] 0 7 false [62, 32] ⟨[], [], []⟩
       = (true, (writecommand ⟨[], [], []⟩ (bootmCmd 7) [62, 32]).2) ∧
     ((writecommand ⟨[], [], []⟩ (bootmCmd 7) [62, 32]).2).writes
       = Serial.writes ⟨[], [], []⟩ ++ [bootmCmd 7 ++ [LINE_FEED]]) ∧
    memwrite [] 5 0 false [62, 32] ⟨[], [], []⟩ = (false, ⟨[], [], []⟩) :=
  ⟨(memwrite_completion_gate [] 0 7 false [62, 32] ⟨[], [], []⟩ ⟨[], [], []⟩ 0 0
      (by decide)).1 rfl,
   (memwrite_completion_gate [] 5 0 false [62, 32] ⟨[], [], []⟩ ⟨[], [], []⟩ 0 5
      (by decide)).2 (by decide)⟩

/-- The monitoring loop on an exhausted oracle reads empty chunks until its
fuel runs out and never reaches a verdict. -/
theorem monitor_exhausted (fuel : Nat) (w : List (List Nat)) (q : List Nat)
    (old : List Nat) : (monitor fuel ⟨[], w, q⟩ old).1 = none := by
  induction fuel generalizing q old with
  | zero => rfl
  | succ f ih =>
    simp only [monitor, Serial.read, List.headD, List.tail]
    exact ih _ _

/-- The monitoring loop returns the success verdict only after the success
banner has appeared inside the concatenation of two consecutive read chunks
(the previous chunk — initially the empty buffer — followed by the chunk
just read). -/
theorem monitor_true_requires_banner (fuel : Nat) (sm : Serial) (old : List Nat)
    (h : (monitor fuel sm old).1 = some true) :
    ∃ p c, (p, c) ∈ (old :: sm.pending.map (List.take 256)).zip
        (sm.pending.map (List.take 256)) ∧
      containsSeq okBanner (p ++ c) = true := by
  induction fuel generalizing sm old with
  | zero => simp [monitor] at h
  | succ f ih =>
    obtain ⟨pending, w, q⟩ := sm
    cases pending with
    | nil =>
      simp only [monitor, Serial.read, List.headD, List.tail, List.take_nil,
        List.isEmpty_nil, if_true] at h
      rw [monitor_exhausted] at h
      exact absurd h (by simp)
    | cons c rest =>
      simp only [monitor, Serial.read, List.headD, List.tail] at h
      simp only [List.map_cons, List.zip_cons_cons]
      by_cases hb : (c.take 256).isEmpty
      · rw [if_pos hb] at h
        obtain ⟨p, c', hmem, hok⟩ := ih _ _ h
        refine ⟨p, c', List.mem_cons_of_mem _ ?_, hok⟩
        simpa [List.zip_cons_cons] using hmem
      · rw [if_neg hb] at h
        by_cases herr : containsSeq errBanner (old ++ c.take 256)
        · rw [if_pos herr] at h
          exact absurd h (by simp)
        · rw [if_neg herr] at h
          by_cases hok : containsSeq okBanner (old ++ c.take 256)
          · exact ⟨old, c.take 256, List.mem_cons_self _ _, hok⟩
          · rw [if_neg hok] at h
            obtain ⟨p, c', hmem, hbanner⟩ := ih _ _ h
            refine ⟨p, c', List.mem_cons_of_mem _ ?_, hbanner⟩
            simpa [List.zip_cons_cons] using hmem

/-- Claim C9: after `memwrite` reports local success, `upload` keeps reading
the transport and can only return once the success banner has appeared in
the concatenation of two consecutive read chunks (first conjunct); when the
monitoring loop instead finds the kernel-image error it breaks back to the
outer loop, so `upload` continues with a fresh attempt that re-invokes
`memwrite` (second conjunct); and when it finds the success banner `upload`
returns at once with no further retry (third conjunct). -/
theorem upload_banner_wait (monFuel : Nat) (sm : Serial) (old : List Nat)
    (attempts : Nat) (src : List Nat) (size0 addr : Nat) (isStdin : Bool)
    (prompt : List Nat) (s1 : Serial) :
    ((monitor monFuel sm old).1 = some true →
      ∃ p c, (p, c) ∈ (old :: sm.pending.map (List.take 256)).zip
          (sm.pending.map (List.take 256)) ∧
        containsSeq okBanner (p ++ c) = true) ∧
    ((memwrite src size0 addr isStdin prompt s1).1 = true →
      (monitor monFuel (memwrite src size0 addr isStdin prompt s1).2 []).1
          = some false →
      upload (attempts + 1) src size0 addr isStdin prompt monFuel s1
        = upload attempts src size0 addr isStdin prompt monFuel
            (monitor monFuel (memwrite src size0 addr isStdin prompt s1).2 []).2) ∧
    ((memwrite src size0 addr isStdin prompt s1).1 = true →
      (monitor monFuel (memwrite src size0 addr isStdin prompt s1).2 []).1
          = some true →
      upload (attempts + 1) src size0 addr isStdin prompt monFuel s1
        = (some (), (monitor monFuel (memwrite src size0 addr isStdin prompt s1).2 []).2)) := by
  refine ⟨monitor_true_requires_banner monFuel sm old, ?_, ?_⟩
  · intro hm hmon
    rcases hw : memwrite src size0 addr isStdin prompt s1 with ⟨b, s'⟩
    rw [hw] at hm hmon
    simp only at hm
    subst hm
    rcases hmon2 : monitor monFuel s' [] with ⟨r, s2⟩
    rw [hmon2] at hmon
    simp only at hmon
    subst hmon
    simp only [upload, hw, hmon2, if_true]
  · intro hm hmon
    rcases hw : memwrite src size0 addr isStdin prompt s1 with ⟨b, s'⟩
    rw [hw] at hm hmon
    simp only at hm
    subst hm
    rcases hmon2 : monitor monFuel s' [] with ⟨r, s2⟩
    rw [hmon2] at hmon
    simp only at hmon
    subst hmon
    simp only [upload, hw, hmon2, if_true]

/-- Witness for claim C9: a zero-length upload succeeds locally; the
transport then yields an empty chunk followed by the success banner, the
banner is found in a two-chunk concatenation, and `upload` returns. -/
theorem upload_banner_wait_witness :
    (∃ p c, (p, c) ∈ (([] : List Nat) ::
        (Serial.pending ⟨[[], okBanner], [bootmCmd 0 ++ [LINE_FEED]], [14]⟩).map
          (List.take 256)).zip
        ((Serial.pending ⟨[[], okBanner], [bootmCmd 0 ++ [LINE_FEED]], [14]⟩).map
          (List.take 256)) ∧
      containsSeq okBanner (p ++ c) = true) ∧
    upload 1 [] 0 0 false [62, 32] 2 ⟨[[], [], okBanner], [], []⟩
      = (some (),
         (monitor 2 (memwrite [] 0 0 false [62, 32] ⟨[[], [], okBanner], [], []⟩).2 []).2) :=
  ⟨(upload_banner_wait 2 ⟨[[], okBanner], [bootmCmd 0 ++ [LINE_FEED]], [14]⟩ []
      0 [] 0 0 false [62, 32] ⟨[[], [], okBanner], [], []⟩).1 (by decide),
   (upload_banner_wait 2 ⟨[[], okBanner], [bootmCmd 0 ++ [LINE_FEED]], [14]⟩ []
      0 [] 0 0 false [62, 32] ⟨[[], [], okBanner], [], []⟩).2.2 (by decide) (by decide)⟩

/-! ## The word-write plan of a transfer, and loop correspondence -/

/-- The sequence of (address, source chunk) pairs the transfer loop walks
through when every command succeeds, mirroring the loop's recursion. -/
def mwPlan : Nat → List Nat → Nat → Nat → Nat → List (Nat × List Nat)
  | 0, _, _, _, _ => []
  | fuel + 1, src, size, bytesRead, addr =>
    if bytesRead < size then
      if (src.take (chunkSize size bytesRead)).length = 0 then []
      else
        (addr, src.take (chunkSize size bytesRead)) ::
          mwPlan fuel (src.drop (chunkSize size bytesRead)) size
            (bytesRead + (src.take (chunkSize size bytesRead)).length) (addr + 4)
    else []

/-- The `mw` command issued for one plan entry. -/
def cmdOf (p : Nat × List Nat) : List Nat := mwCmd p.1 (wordVal p.2)

/-- An oracle on which each command of `cmds` succeeds in turn: its exact
echo followed by the exact prompt. -/
def okPending (prompt : List Nat) : List (List Nat) → List (List Nat)
  | [] => []
  | c :: cs => c :: prompt :: okPending prompt cs

/-- The read-request log produced by executing `cmds` successfully. -/
def okReqs (prompt : List Nat) : List (List Nat) → List Nat
  | [] => []
  | c :: cs => c.length :: prompt.length :: okReqs prompt cs

/-- Total number of source bytes covered by a list of plan entries. -/
def sumLens (l : List (Nat × List Nat)) : Nat := (l.map fun p => p.2.length).sum

/-- On an oracle echoing every planned command, a transfer loop fed a source
of exactly the remaining declared size executes the whole plan and ends
normally with `bytes_read = size`. -/
theorem memwriteLoop_ok (fuel : Nat) :
    ∀ (src : List Nat) (size bytesRead addr : Nat) (prompt : List Nat)
      (w rest : List (List Nat)) (q : List Nat),
    bytesRead + src.length = size → src.length < fuel →
    memwriteLoop fuel src size bytesRead addr false prompt
      ⟨okPending prompt ((mwPlan fuel src size bytesRead addr).map cmdOf) ++ rest, w, q⟩
    = some (MWExit.done size size,
        ⟨rest,
         w ++ (mwPlan fuel src size bytesRead addr).map (fun p => cmdOf p ++ [LINE_FEED]),
         q ++ okReqs prompt ((mwPlan fuel src size bytesRead addr).map cmdOf)⟩) := by
  induction fuel with
  | zero =>
    intro src size br addr prompt w rest q h1 h2
    omega
  | succ f ih =>
    intro src size br addr prompt w rest q h1 h2
    by_cases hbr : br < size
    case neg =>
      have hbs : br = size := by omega
      subst hbs
      simp [memwriteLoop, mwPlan, hbr, okPending, okReqs]
    case pos =>
      have hn1 : 1 ≤ chunkSize size br := by unfold chunkSize; split <;> omega
      have hn2 : chunkSize size br ≤ src.length := by unfold chunkSize; split <;> omega
      have hlen : (src.take (chunkSize size br)).length = chunkSize size br := by
        rw [List.length_take]; omega
      have hlen0 : ¬ (src.take (chunkSize size br)).length = 0 := by omega
      have hplan : mwPlan (f + 1) src size br addr
          = (addr, src.take (chunkSize size br)) ::
            mwPlan f (src.drop (chunkSize size br)) size
              (br + (src.take (chunkSize size br)).length) (addr + 4) := by
        rw [mwPlan, if_pos hbr, if_neg hlen0]
      have hcmd : mwCmd addr (beVal (List.replicate
            (4 - (src.take (chunkSize size br)).reverse.length) 0
            ++ (src.take (chunkSize size br)).reverse))
          = cmdOf (addr, src.take (chunkSize size br)) := rfl
      rw [hplan]
      simp only [memwriteLoop, List.map_cons, okPending, okReqs, List.cons_append]
      rw [if_pos hbr, if_neg (by simpa using hlen0), hcmd, writecommand_ok]
      simp only [List.length_reverse]
      rw [ih (src.drop (chunkSize size br)) size
        (br + (src.take (chunkSize size br)).length) (addr + 4) prompt
        (w ++ [cmdOf (addr, src.take (chunkSize size br)) ++ [LINE_FEED]]) rest
        (q ++ [(cmdOf (addr, src.take (chunkSize size br))).length, prompt.length])
        (by rw [List.length_drop]; omega)
        (by rw [List.length_drop]; omega)]
      simp

/-- No plan entries remain once `bytes_read` has reached `size`. -/
theorem mwPlan_nil (fuel : Nat) (src : List Nat) (size bytesRead addr : Nat)
    (h : ¬ bytesRead < size) : mwPlan fuel src size bytesRead addr = [] := by
  cases fuel with
  | zero => rfl
  | succ f => rw [mwPlan, if_neg h]

/-- Unfolding lemma for `sumLens`. -/
theorem sumLens_cons (p : Nat × List Nat) (l : List (Nat × List Nat)) :
    sumLens (p :: l) = p.2.length + sumLens l := by
  simp [sumLens]

/-- With a source of exactly the remaining size, the plan issues one command
per 4 source bytes, rounding up. -/
theorem mwPlan_length (fuel : Nat) :
    ∀ (src : List Nat) (size bytesRead addr : Nat),
    bytesRead + src.length = size → src.length < fuel →
    (mwPlan fuel src size bytesRead addr).length = (src.length + 3) / 4 := by
  induction fuel with
  | zero =>
    intro src size br addr h1 h2
    omega
  | succ f ih =>
    intro src size br addr h1 h2
    by_cases hbr : br < size
    case neg =>
      have h0 : src.length = 0 := by omega
      rw [mwPlan, if_neg hbr]
      simp
      omega
    case pos =>
      have hn1 : 1 ≤ chunkSize size br := by unfold chunkSize; split <;> omega
      have hn2 : chunkSize size br ≤ src.length := by unfold chunkSize; split <;> omega
      have hcs : chunkSize size br = min 4 src.length := by
        unfold chunkSize; split <;> omega
      have hlen : (src.take (chunkSize size br)).length = chunkSize size br := by
        rw [List.length_take]; omega
      have hlen0 : ¬ (src.take (chunkSize size br)).length = 0 := by omega
      rw [mwPlan, if_pos hbr, if_neg hlen0, List.length_cons,
        ih _ _ _ _ (by rw [List.length_drop]; omega) (by rw [List.length_drop]; omega),
        List.length_drop]
      omega

/-- With a source of exactly the remaining size, the final plan entry sits at
the last word address and holds the last `L mod 4` source bytes (all 4 of
them when `L` is a multiple of 4). -/
theorem mwPlan_getLast (fuel : Nat) :
    ∀ (src : List Nat) (size bytesRead addr : Nat),
    bytesRead + src.length = size → src.length < fuel → 0 < src.length →
    (mwPlan fuel src size bytesRead addr).getLast?
      = some (addr + 4 * ((src.length + 3) / 4 - 1),
              src.drop (4 * ((src.length - 1) / 4))) := by
  induction fuel with
  | zero =>
    intro src size br addr h1 h2 h3
    omega
  | succ f ih =>
    intro src size br addr h1 h2 h3
    have hbr : br < size := by omega
    have hn1 : 1 ≤ chunkSize size br := by unfold chunkSize; split <;> omega
    have hn2 : chunkSize size br ≤ src.length := by unfold chunkSize; split <;> omega
    have hlen : (src.take (chunkSize size br)).length = chunkSize size br := by
      rw [List.length_take]; omega
    have hlen0 : ¬ (src.take (chunkSize size br)).length = 0 := by omega
    rw [mwPlan, if_pos hbr, if_neg hlen0]
    by_cases hbig : 4 < src.length
    case pos =>
      have hcs : chunkSize size br = 4 := by unfold chunkSize; split <;> omega
      have hlplan : (mwPlan f (src.drop (chunkSize size br)) size
          (br + (src.take (chunkSize size br)).length) (addr + 4)).length
          = ((src.drop (chunkSize size br)).length + 3) / 4 :=
        mwPlan_length f _ _ _ _ (by rw [List.length_drop]; omega)
          (by rw [List.length_drop]; omega)
      cases hplan' : mwPlan f (src.drop (chunkSize size br)) size
          (br + (src.take (chunkSize size br)).length) (addr + 4) with
      | nil =>
        rw [hplan'] at hlplan
        rw [List.length_drop] at hlplan
        simp at hlplan
        omega
      | cons p0 rest =>
        have hlast := ih (src.drop (chunkSize size br)) size
          (br + (src.take (chunkSize size br)).length) (addr + 4)
          (by rw [List.length_drop]; omega) (by rw [List.length_drop]; omega)
          (by rw [List.length_drop]; omega)
        rw [hplan'] at hlast
        rw [List.getLast?_cons_cons, hlast]
        rw [List.length_drop, hcs, List.drop_drop]
        simp only [Option.some.injEq, Prod.mk.injEq]
        constructor
        · omega
        · congr 1
          omega
    case neg =>
      have hcs : chunkSize size br = src.length := by unfold chunkSize; split <;> omega
      rw [mwPlan_nil f _ _ _ _ (by rw [hlen, hcs]; omega)]
      have h0 : 4 * ((src.length - 1) / 4) = 0 := by omega
      have h1' : (src.length + 3) / 4 - 1 = 0 := by omega
      rw [h0, h1', List.drop_zero, hcs, List.take_length]
      simp

/-- With a source of exactly the remaining size, the first `k` plan entries
cover `min (4k) L` source bytes. -/
theorem sumLens_take (fuel : Nat) :
    ∀ (src : List Nat) (size bytesRead addr k : Nat),
    bytesRead + src.length = size → src.length < fuel →
    sumLens ((mwPlan fuel src size bytesRead addr).take k)
      = min (4 * k) src.length := by
  induction fuel with
  | zero =>
    intro src size br addr k h1 h2
    omega
  | succ f ih =>
    intro src size br addr k h1 h2
    by_cases hbr : br < size
    case neg =>
      have h0 : src.length = 0 := by omega
      rw [mwPlan_nil _ _ _ _ _ hbr]
      simp [sumLens]
      omega
    case pos =>
      have hn1 : 1 ≤ chunkSize size br := by unfold chunkSize; split <;> omega
      have hn2 : chunkSize size br ≤ src.length := by unfold chunkSize; split <;> omega
      have hcs : chunkSize size br = min 4 src.length := by
        unfold chunkSize; split <;> omega
      have hlen : (src.take (chunkSize size br)).length = chunkSize size br := by
        rw [List.length_take]; omega
      have hlen0 : ¬ (src.take (chunkSize size br)).length = 0 := by omega
      rw [mwPlan, if_pos hbr, if_neg hlen0]
      cases k with
      | zero => simp [sumLens]
      | succ k' =>
        rw [List.take_succ_cons, sumLens_cons,
          ih _ _ _ _ _ (by rw [List.length_drop]; omega) (by rw [List.length_drop]; omega),
          List.length_drop, hlen]
        omega

/-- On an oracle that echoes the first `i` planned commands and then fails
the echo of command `i`, the transfer loop writes exactly the commands up to
index `i`, consumes exactly their chunks' bytes, and exits with `fail`. -/
theorem memwriteLoop_fail (fuel : Nat) :
    ∀ (src : List Nat) (size bytesRead addr : Nat) (prompt : List Nat)
      (w : List (List Nat)) (q : List Nat) (i : Nat) (e : List Nat)
      (tail : List (List Nat)),
    bytesRead + src.length = size → src.length < fuel →
    i < (mwPlan fuel src size bytesRead addr).length →
    e.take (cmdOf ((mwPlan fuel src size bytesRead addr).getD i (0, []))).length
      ≠ cmdOf ((mwPlan fuel src size bytesRead addr).getD i (0, [])) →
    memwriteLoop fuel src size bytesRead addr false prompt
      ⟨okPending prompt (((mwPlan fuel src size bytesRead addr).take i).map cmdOf)
        ++ e :: tail, w, q⟩
    = some (MWExit.fail (bytesRead
          + sumLens ((mwPlan fuel src size bytesRead addr).take (i + 1))),
        ⟨tail,
         w ++ ((mwPlan fuel src size bytesRead addr).take (i + 1)).map
            (fun p => cmdOf p ++ [LINE_FEED]),
         q ++ okReqs prompt (((mwPlan fuel src size bytesRead addr).take i).map cmdOf)
           ++ [(cmdOf ((mwPlan fuel src size bytesRead addr).getD i (0, []))).length]⟩) := by
  induction fuel with
  | zero =>
    intro src size br addr prompt w q i e tail h1 h2 h3 h4
    omega
  | succ f ih =>
    intro src size br addr prompt w q i e tail h1 h2 h3 h4
    by_cases hbr : br < size
    case neg =>
      rw [mwPlan_nil _ _ _ _ _ hbr] at h3
      simp at h3
    case pos =>
      have hn1 : 1 ≤ chunkSize size br := by unfold chunkSize; split <;> omega
      have hn2 : chunkSize size br ≤ src.length := by unfold chunkSize; split <;> omega
      have hlen : (src.take (chunkSize size br)).length = chunkSize size br := by
        rw [List.length_take]; omega
      have hlen0 : ¬ (src.take (chunkSize size br)).length = 0 := by omega
      have hplan : mwPlan (f + 1) src size br addr
          = (addr, src.take (chunkSize size br)) ::
            mwPlan f (src.drop (chunkSize size br)) size
              (br + (src.take (chunkSize size br)).length) (addr + 4) := by
        rw [mwPlan, if_pos hbr, if_neg hlen0]
      have hcmd : mwCmd addr (beVal (List.replicate
            (4 - (src.take (chunkSize size br)).reverse.length) 0
            ++ (src.take (chunkSize size br)).reverse))
          = cmdOf (addr, src.take (chunkSize size br)) := rfl
      rw [hplan] at h3 h4 ⊢
      cases i with
      | zero =>
        simp only [List.take_zero, List.map_nil, okPending, List.nil_append,
          List.getD_cons_zero] at h4 ⊢
        simp only [memwriteLoop]
        rw [if_pos hbr, if_neg (by simpa using hlen0), hcmd,
          writecommand_bad_echo _ _ _ _ _ _ h4]
        simp only [Bool.false_eq_true, if_false, List.length_reverse,
          List.take_succ_cons, List.take_zero, sumLens_cons, List.map_cons,
          List.map_nil, okReqs]
        simp [sumLens]
      | succ i' =>
        simp only [List.take_succ_cons, List.map_cons, okPending,
          List.cons_append, List.getD_cons_succ] at h4 ⊢
        simp only [memwriteLoop]
        rw [if_pos hbr, if_neg (by simpa using hlen0), hcmd, writecommand_ok]
        simp only [List.length_reverse, if_true]
        rw [ih (src.drop (chunkSize size br)) size
          (br + (src.take (chunkSize size br)).length) (addr + 4) prompt
          (w ++ [cmdOf (addr, src.take (chunkSize size br)) ++ [LINE_FEED]])
          (q ++ [(cmdOf (addr, src.take (chunkSize size br))).length, prompt.length])
          i' e tail
          (by rw [List.length_drop]; omega) (by rw [List.length_drop]; omega)
          (by rw [List.length_cons] at h3; omega) h4]
        simp only [sumLens_cons, okReqs, List.map_cons]
        simp [List.append_assoc, Nat.add_assoc]

/-- A declared size equal to the source length resolves to itself (also when
both are 0, where the unknown-size rule substitutes the file length). -/
theorem resolveSize_self (L : Nat) : resolveSize L false L = L := by
  unfold resolveSize
  split <;> simp_all

/-! ## Claim theorems: the Memory Uploader -/

/-- Claim C3: for every source of length `L` uploaded with declared size `L`
over an oracle on which every command succeeds, `memwrite` returns success
and writes exactly `⌈L/4⌉` word-write commands followed by the single
`bootm`; for `L > 0` the final word-write command sits at the last word
address, its chunk is the last `L mod 4` source bytes (all 4 when `4 ∣ L`),
and its value is that chunk reversed and zero-padded at the most significant
end with `(4 - L mod 4) mod 4` zero bytes. -/
theorem memwrite_word_count (src : List Nat) (addr : Nat) (prompt : List Nat) :
    (memwrite src src.length addr false prompt
       ⟨okPending prompt ((mwPlan (src.length + 1) src src.length 0 addr).map cmdOf),
        [], []⟩).1 = true ∧
    (memwrite src src.length addr false prompt
       ⟨okPending prompt ((mwPlan (src.length + 1) src src.length 0 addr).map cmdOf),
        [], []⟩).2.writes
      = (mwPlan (src.length + 1) src src.length 0 addr).map
          (fun p => cmdOf p ++ [LINE_FEED]) ++ [bootmCmd addr ++ [LINE_FEED]] ∧
    (mwPlan (src.length + 1) src src.length 0 addr).length = (src.length + 3) / 4 ∧
    (0 < src.length →
      (mwPlan (src.length + 1) src src.length 0 addr).getLast?
        = some (addr + 4 * ((src.length + 3) / 4 - 1),
                src.drop (4 * ((src.length - 1) / 4))) ∧
      wordVal (src.drop (4 * ((src.length - 1) / 4)))
        = beVal (List.replicate ((4 - src.length % 4) % 4) 0
            ++ (src.drop (4 * ((src.length - 1) / 4))).reverse)) := by
  have hloop := memwriteLoop_ok (src.length + 1) src src.length 0 addr prompt
    [] [] [] (by omega) (by omega)
  rw [List.append_nil] at hloop
  refine ⟨?_, ?_, mwPlan_length _ _ _ _ _ (by omega) (by omega), ?_⟩
  · unfold memwrite
    rw [resolveSize_self, hloop]
    simp [memwriteFinish]
  · unfold memwrite
    rw [resolveSize_self, hloop]
    simp [memwriteFinish, writecommand_writes]
  · intro hpos
    refine ⟨mwPlan_getLast _ _ _ _ _ (by omega) (by omega) hpos, ?_⟩
    unfold wordVal
    rw [show 4 - (src.drop (4 * ((src.length - 1) / 4))).reverse.length
        = (4 - src.length % 4) % 4 from by
      rw [List.length_reverse, List.length_drop]; omega]

/-- Witness for claim C3, at the 5-byte source `[1, 2, 3, 4, 5]`. -/
theorem memwrite_word_count_witness :
    0 < ([1, 2, 3, 4, 5] : List Nat).length ∧
    ((mwPlan (([1, 2, 3, 4, 5] : List Nat).length + 1) [1, 2, 3, 4, 5]
        ([1, 2, 3, 4, 5] : List Nat).length 0 0).getLast?
      = some (0 + 4 * ((([1, 2, 3, 4, 5] : List Nat).length + 3) / 4 - 1),
              ([1, 2, 3, 4, 5] : List Nat).drop
                (4 * ((([1, 2, 3, 4, 5] : List Nat).length - 1) / 4))) ∧
     wordVal (([1, 2, 3, 4, 5] : List Nat).drop
         (4 * ((([1, 2, 3, 4, 5] : List Nat).length - 1) / 4)))
       = beVal (List.replicate ((4 - ([1, 2, 3, 4, 5] : List Nat).length % 4) % 4) 0
           ++ (([1, 2, 3, 4, 5] : List Nat).drop
               (4 * ((([1, 2, 3, 4, 5] : List Nat).length - 1) / 4))).reverse)) :=
  ⟨by decide, (memwrite_word_count [1, 2, 3, 4, 5] 0 [62, 32]).2.2.2 (by decide)⟩

/-- Claim C5 as stated is false at this input: the echo of the very first
command (word index `i = 0`) is corrupted, the loop aborts — but having
already consumed that word's 4 bytes, so `bytes_read = 4`, not the `0` bytes
of "exactly 0 complete words". -/
theorem memwrite_abort_counterexample :
    memwriteLoop 9 [1, 2, 3, 4, 5, 6, 7, 8] 8 0 4096 false [62, 32] ⟨[[0]], [], []⟩
      = some (MWExit.fail 4,
          ⟨[], [strBytes "mw 00001000 04030201" ++ [LINE_FEED]], [20]⟩) ∧
    (4 : Nat) ≠ 4 * 0 := by
  decide

/-- Claim C5 (amended): if the Command Executor fails on word index `i`
(0-indexed), the Memory Uploader issues no word-write command beyond index
`i` — the write log holds exactly the commands of indices `0..i` — and
returns overall failure; `bytes_read` at that point reflects the `i + 1`
words consumed from the source, the failing word's bytes included
(`min (4(i+1)) L` bytes), not `i` complete words. -/
theorem memwrite_abort_on_failure (src : List Nat) (addr : Nat)
    (prompt : List Nat) (i : Nat) (e : List Nat) (tail : List (List Nat))
    (hi : i < (mwPlan (src.length + 1) src src.length 0 addr).length)
    (he : e.take (cmdOf ((mwPlan (src.length + 1) src src.length 0 addr).getD
        i (0, []))).length
      ≠ cmdOf ((mwPlan (src.length + 1) src src.length 0 addr).getD i (0, []))) :
    memwriteLoop (src.length + 1) src src.length 0 addr false prompt
      ⟨okPending prompt
          (((mwPlan (src.length + 1) src src.length 0 addr).take i).map cmdOf)
        ++ e :: tail, [], []⟩
      = some (MWExit.fail (min (4 * (i + 1)) src.length),
          ⟨tail,
           ((mwPlan (src.length + 1) src src.length 0 addr).take (i + 1)).map
             (fun p => cmdOf p ++ [LINE_FEED]),
           okReqs prompt
               (((mwPlan (src.length + 1) src src.length 0 addr).take i).map cmdOf)
             ++ [(cmdOf ((mwPlan (src.length + 1) src src.length 0 addr).getD
                 i (0, []))).length]⟩) ∧
    ((mwPlan (src.length + 1) src src.length 0 addr).take (i + 1)).length = i + 1 ∧
    (memwrite src src.length addr false prompt
      ⟨okPending prompt
          (((mwPlan (src.length + 1) src src.length 0 addr).take i).map cmdOf)
        ++ e :: tail, [], []⟩).1 = false := by
  have hfail := memwriteLoop_fail (src.length + 1) src src.length 0 addr prompt
    [] [] i e tail (by omega) (by omega) hi he
  have hmin := sumLens_take (src.length + 1) src src.length 0 addr (i + 1)
    (by omega) (by omega)
  simp only [List.nil_append, Nat.zero_add] at hfail
  rw [hmin] at hfail
  refine ⟨hfail, ?_, ?_⟩
  · rw [List.length_take]
    omega
  · unfold memwrite
    rw [resolveSize_self, hfail]
    simp [memwriteFinish]

/-- Witness for the amended claim C5: an 8-byte source whose second word
write (index `i = 1`) receives the corrupt echo `[0]`. -/
theorem memwrite_abort_on_failure_witness :
    memwriteLoop (([1, 2, 3, 4, 5, 6, 7, 8] : List Nat).length + 1)
      [1, 2, 3, 4, 5, 6, 7, 8] ([1, 2, 3, 4, 5, 6, 7, 8] : List Nat).length
      0 4096 false [62, 32]
      ⟨okPending [62, 32]
          (((mwPlan (([1, 2, 3, 4, 5, 6, 7, 8] : List Nat).length + 1)
              [1, 2, 3, 4, 5, 6, 7, 8]
              ([1, 2, 3, 4, 5, 6, 7, 8] : List Nat).length 0 4096).take 1).map cmdOf)
        ++ [0] :: [], [], []⟩
      = some (MWExit.fail (min (4 * (1 + 1)) ([1, 2, 3, 4, 5, 6, 7, 8] : List Nat).length),
          ⟨[],
           ((mwPlan (([1, 2, 3, 4, 5, 6, 7, 8] : List Nat).length + 1)
               [1, 2, 3, 4, 5, 6, 7, 8]
               ([1, 2, 3, 4, 5, 6, 7, 8] : List Nat).length 0 4096).take (1 + 1)).map
             (fun p => cmdOf p ++ [LINE_FEED]),
           okReqs [62, 32]
               (((mwPlan (([1, 2, 3, 4, 5, 6, 7, 8] : List Nat).length + 1)
                   [1, 2, 3, 4, 5, 6, 7, 8]
                   ([1, 2, 3, 4, 5, 6, 7, 8] : List Nat).length 0 4096).take 1).map cmdOf)
             ++ [(cmdOf ((mwPlan (([1, 2, 3, 4, 5, 6, 7, 8] : List Nat).length + 1)
                 [1, 2, 3, 4, 5, 6, 7, 8]
                 ([1, 2, 3, 4, 5, 6, 7, 8] : List Nat).length 0 4096).getD
                 1 (0, []))).length]⟩) ∧
    ((mwPlan (([1, 2, 3, 4, 5, 6, 7, 8] : List Nat).length + 1) [1, 2, 3, 4, 5, 6, 7, 8]
        ([1, 2, 3, 4, 5, 6, 7, 8] : List Nat).length 0 4096).take (1 + 1)).length = 1 + 1 ∧
    (memwrite [1, 2, 3, 4, 5, 6, 7, 8] ([1, 2, 3, 4, 5, 6, 7, 8] : List Nat).length
      4096 false [62, 32]
      ⟨okPending [62, 32]
          (((mwPlan (([1, 2, 3, 4, 5, 6, 7, 8] : List Nat).length + 1)
              [1, 2, 3, 4, 5, 6, 7, 8]
              ([1, 2, 3, 4, 5, 6, 7, 8] : List Nat).length 0 4096).take 1).map cmdOf)
        ++ [0] :: [], [], []⟩).1 = false :=
  memwrite_abort_on_failure [1, 2, 3, 4, 5, 6, 7, 8] 4096 [62, 32] 1 [0] []
    (by decide) (by decide)

end Ubootwrite
